import Mathlib

/-!
Verification of the game-record normalization and derived-statistics layer of
the Amherst Ramblers display (display.js and the main display script).  The
JavaScript is shallowly embedded: JSON values become an inductive `JSValue`,
machine numbers become `ℚ`, the stable Array.prototype.sort becomes a stable
insertion sort, and the browser-side rotation store becomes explicit state
passing.  Every definition is translated from the source; the one exception,
marked in its doc comment, is the ticker override gate, which is modelled from
the spec because its code is not among the repository files here.
-/

namespace AmherstDisplay

/-! ## A stable sort, modelling Array.prototype.sort with a comparator

JavaScript sorts are stable: elements that compare equal keep their input
order.  `sortBy pre` is a stable insertion sort where `pre x y = true` means
the earlier element `x` may stay in front of `y` (comparator value ≤ 0). -/

def insBy (pre : α → α → Bool) (x : α) : List α → List α
  | [] => [x]
  | y :: ys => if pre x y then x :: y :: ys else y :: insBy pre x ys

def sortBy (pre : α → α → Bool) : List α → List α
  | [] => []
  | x :: xs => insBy pre x (sortBy pre xs)

/-! ## JSON/JavaScript values

JSON documents and the in-memory records built from them.  JavaScript numbers
are modelled as rationals (JSON cannot encode NaN or infinities); objects are
field lists keyed by strings. -/

inductive JSValue where
  | null
  | undefined
  | bool (b : Bool)
  | num (q : ℚ)
  | str (s : String)
  | obj (fields : List (String × JSValue))
  | arr (elems : List JSValue)

/-- JavaScript truthiness (NaN is not representable in JSON input). -/
def jsTruthy : JSValue → Bool
  | .null => false
  | .undefined => false
  | .bool b => b
  | .num q => decide (q ≠ 0)
  | .str s => !s.isEmpty
  | .obj _ => true
  | .arr _ => true

/-- Property read `v[k]`.  On an object it is the field (or undefined); on a
primitive it is undefined, exactly as in JavaScript.  On null/undefined it
returns undefined: in the embedded accessors every plain read sits behind a
truthiness guard, so this total function agrees with the source there, and it
is exactly the semantics of the optional chain `v?.k`.  Where a read CAN throw
(display.js getOpponent) the `Except`-valued `jsGetM` below is used instead. -/
def jsField : JSValue → String → JSValue
  | .obj fs, k => ((fs.lookup k).getD .undefined)
  | _, _ => .undefined

/-- JavaScript `a || b`. -/
def jsOr (a b : JSValue) : JSValue := if jsTruthy a then a else b

/-- JavaScript `a ?? b`. -/
def jsNullish (a b : JSValue) : JSValue :=
  match a with
  | .null => b
  | .undefined => b
  | v => v

/-- JavaScript `v == null` (loose): true exactly on null and undefined. -/
def jsLooseNull : JSValue → Bool
  | .null => true
  | .undefined => true
  | _ => false

/-- JavaScript `typeof v === "boolean"`. -/
def jsIsBool : JSValue → Bool
  | .bool _ => true
  | _ => false

/-- JavaScript `v === s` against a string literal. -/
def jsStrictEqStr (v : JSValue) (s : String) : Bool :=
  match v with
  | .str t => t == s
  | _ => false

/-- JS number-to-string; the exact digit rendering is immaterial to every
claim (it only feeds display strings). -/
def numToStr (q : ℚ) : String :=
  if q.den = 1 then toString q.num else toString q

/-- `String(v)` on a non-array value. -/
def jsToStrCore : JSValue → String
  | .null => "null"
  | .undefined => "undefined"
  | .bool b => cond b "true" "false"
  | .num q => numToStr q
  | .str s => s
  | .obj _ => "[object Object]"
  | .arr _ => ""

/-- `String(v)`; arrays join one level of elements with commas, as
Array.prototype.toString does (deeper nesting is immaterial here). -/
def jsToStr : JSValue → String
  | .arr xs =>
      String.intercalate "," (xs.map fun x =>
        match x with
        | .null => ""
        | .undefined => ""
        | v => jsToStrCore v)
  | v => jsToStrCore v

/-- Char-list prefix test (spelled out structurally so that evaluation
reduces in the kernel). -/
def charsStartWith : List Char → List Char → Bool
  | [], _ => true
  | _ :: _, [] => false
  | a :: as, b :: bs => a == b && charsStartWith as bs

def charsContain (needle : List Char) : List Char → Bool
  | [] => needle.isEmpty
  | b :: rest => charsStartWith needle (b :: rest) || charsContain needle rest

/-- `String.prototype.includes`: the needle occurs as a contiguous substring
(the empty needle always matches). -/
def strIncludes (s t : String) : Bool := charsContain t.data s.data

/-- `String.prototype.toLowerCase` (ASCII, which covers every constant the
source compares). -/
def strLower (s : String) : String := String.mk (s.data.map Char.toLower)

/-- `String.prototype.toUpperCase` (ASCII). -/
def strUpper (s : String) : String := String.mk (s.data.map Char.toUpper)

def decDigitsVal : List Char → Option Nat
  | cs =>
    if cs.isEmpty then none
    else if cs.all Char.isDigit then
      some (cs.foldl (fun n c => 10 * n + (c.toNat - 48)) 0)
    else none

def parseUnsignedDec (s : String) : Option ℚ :=
  match s.splitOn "." with
  | [a] => (decDigitsVal a.data).map (fun n => (n : ℚ))
  | [a, b] =>
    if a.isEmpty && b.isEmpty then none
    else
      match (if a.isEmpty then some 0 else decDigitsVal a.data),
            (if b.isEmpty then some 0 else decDigitsVal b.data) with
      | some ip, some fp => some ((ip : ℚ) + (fp : ℚ) / ((10 : ℚ) ^ b.length))
      | _, _ => none
  | _ => none

/-- JS ToNumber on a string: trimmed, empty means 0, optional sign, plain
decimal literals; other forms (hex, exponent, Infinity) mean NaN (`none`). -/
def strToNumber (s : String) : Option ℚ :=
  let t := s.trim
  if t.isEmpty then some 0
  else if t.startsWith "-" then (parseUnsignedDec (t.drop 1)).map Neg.neg
  else if t.startsWith "+" then parseUnsignedDec (t.drop 1)
  else parseUnsignedDec t

/-- JS ToNumber; `none` plays NaN. -/
def jsToNumber : JSValue → Option ℚ
  | .null => some 0
  | .undefined => none
  | .bool b => some (cond b 1 0)
  | .num q => some q
  | .str s => strToNumber s
  | .obj _ => none
  | .arr xs => strToNumber (jsToStr (.arr xs))

/-- JavaScript `a > b`: string-to-string comparisons are lexicographic, all
others go through ToNumber, and any NaN makes the comparison false. -/
def jsGT (a b : JSValue) : Bool :=
  match a, b with
  | .str s, .str t => decide (t < s)
  | a, b =>
    match jsToNumber a, jsToNumber b with
    | some x, some y => decide (y < x)
    | _, _ => false

/-! ## Game accessors (display.js 113-187, main display script 116-194)

The two files share these functions verbatim except for `getOpponent`.
`CONFIG.team` is the constant `amherst-ramblers`. -/

def CONFIG_team : String := "amherst-ramblers"

/-- `isHomeGame(game)`: the `home_game` boolean when present, else the legacy
slug comparison.  Always yields a boolean in the source. -/
def isHomeGame (game : JSValue) : Bool :=
  if !jsTruthy game then false
  else if jsIsBool (jsField game "home_game") then
    match jsField game "home_game" with
    | .bool b => b
    | _ => false
  else
    jsStrictEqStr
      (jsOr (jsOr (jsField game "home_team_slug") (jsField (jsField game "homeTeam") "slug"))
        (.str ""))
      CONFIG_team

/-- `getOurScore(game)` (shared by both files). -/
def getOurScore (game : JSValue) : JSValue :=
  if !jsTruthy game then .null
  else if jsTruthy (jsField game "result") then
    jsNullish (jsField (jsField game "result") "ramblers_score") .null
  else if isHomeGame game then
    jsNullish (jsNullish (jsField game "home_score") (jsField game "homeScore")) .null
  else
    jsNullish (jsNullish (jsField game "away_score") (jsField game "awayScore")) .null

/-- `getTheirScore(game)` (shared by both files). -/
def getTheirScore (game : JSValue) : JSValue :=
  if !jsTruthy game then .null
  else if jsTruthy (jsField game "result") then
    jsNullish (jsField (jsField game "result") "opponent_score") .null
  else if isHomeGame game then
    jsNullish (jsNullish (jsField game "away_score") (jsField game "awayScore")) .null
  else
    jsNullish (jsNullish (jsField game "home_score") (jsField game "homeScore")) .null

/-- `didWeWin(game)` (shared by both files): returns `game?.result?.won`
verbatim when that chain is not undefined, else null when either extracted
score is loosely null, else the comparison of the scores. -/
def didWeWin (game : JSValue) : JSValue :=
  match jsField (jsField game "result") "won" with
  | .undefined =>
    let ours := getOurScore game
    let theirs := getTheirScore game
    if jsLooseNull ours || jsLooseNull theirs then .null
    else .bool (jsGT ours theirs)
  | w => w

/-- `isCompleted(game)` (shared by both files). -/
def isCompleted (game : JSValue) : Bool :=
  if !jsTruthy game then false
  else
    !jsLooseNull (jsField game "result") ||
    !jsLooseNull (jsField game "home_score") ||
    !jsLooseNull (jsField game "homeScore")

/-! ## display.js getOpponent, with throwing semantics

Here property reads and the `toLowerCase` method call are embedded in
`Except`, because this function is where a throw is actually reachable. -/

/-- A property read that faults on a null/undefined base, as JavaScript does. -/
def jsGetM : JSValue → String → Except String JSValue
  | .null, k => .error ("TypeError: cannot read properties of null (reading " ++ k ++ ")")
  | .undefined, k => .error ("TypeError: cannot read properties of undefined (reading " ++ k ++ ")")
  | v, k => .ok (jsField v k)

/-- `v.toLowerCase()`: only a string has the method; every other receiver
faults with a TypeError, as JavaScript does. -/
def jsCallToLowerCase : JSValue → Except String JSValue
  | .str s => .ok (.str (strLower s))
  | _ => .error "TypeError: code.toLowerCase is not a function"

/-- `getOpponent(game)` of display.js (lines 123-145).  The legacy branches
call the boolean `isHomeGame`, which contains no throwing operation. -/
def getOpponent_display (game : JSValue) : Except String JSValue := do
  if !jsTruthy game then
    return .obj [("name", .str "TBD"), ("slug", .str "")]
  let opp ← jsGetM game "opponent"
  if jsTruthy opp then
    let tc ← jsGetM opp "team_code"
    let code := jsOr tc (.str "")
    let tn ← jsGetM opp "team_name"
    let slug ← if jsTruthy code then jsCallToLowerCase code else pure (.str "")
    return .obj [("name", jsOr tn (.str "TBD")), ("slug", slug), ("code", code)]
  else if isHomeGame game then
    let at1 ← jsGetM game "away_team"
    let awt ← jsGetM game "awayTeam"
    let ats ← jsGetM game "away_team_slug"
    return .obj
      [("name", jsOr (jsOr at1 (jsField awt "name")) (.str "TBD")),
       ("slug", jsOr (jsOr ats (jsField awt "slug")) (.str ""))]
  else
    let ht1 ← jsGetM game "home_team"
    let hmt ← jsGetM game "homeTeam"
    let hts ← jsGetM game "home_team_slug"
    return .obj
      [("name", jsOr (jsOr ht1 (jsField hmt "name")) (.str "TBD")),
       ("slug", jsOr (jsOr hts (jsField hmt "slug")) (.str ""))]

/-! ## Cache-backed fetch layer (fetchJson, both files)

The network outcome is a parameter; `localStorage` becomes an explicit map
from cache keys to entries.  JSON round-tripping of the stored entry and the
quota-full case are modelled as the identity / as succeeding. -/

def CONFIG_staleOK : Int := 30 * 60 * 1000

structure CacheEntry where
  ts : Int
  data : JSValue

/-- `'cache_' + path.replace(/[^a-z0-9]/gi, '_')`. -/
def cacheKeyOf (path : String) : String :=
  "cache_" ++ String.mk (path.data.map fun c => if c.isAlpha || c.isDigit then c else '_')

inductive FetchOutcome where
  | success (data : JSValue)
  | failure (msg : String)

/-- `fetchJson(path)`: on success cache and return the payload; on failure
fall back to a cache entry younger than `CONFIG.staleOK`, else rethrow.
Returns the result together with the cache after the call. -/
def fetchJson (outcome : FetchOutcome) (cache : String → Option CacheEntry)
    (now : Int) (path : String) :
    Except String JSValue × (String → Option CacheEntry) :=
  let key := cacheKeyOf path
  match outcome with
  | .success data =>
    (.ok data, fun k => if k = key then some ⟨now, data⟩ else cache k)
  | .failure msg =>
    match cache key with
    | some e => if now - e.ts < CONFIG_staleOK then (.ok e.data, cache) else (.error msg, cache)
    | none => (.error msg, cache)

/-! ## Per-game performance ranker (computeThreeStars, main display script 876-941)

Player-stat records carry JSON numbers or absent fields, modelled as
`Option ℚ` (with `safeNum` as `getD`), and string fields as `Option String`
(absent = undefined).  `x || y` on such fields follows JS truthiness: absent,
`0` and the empty string are falsy. -/

def truthyQ : Option ℚ → Bool
  | none => false
  | some q => decide (q ≠ 0)

def truthyS : Option String → Bool
  | none => false
  | some s => !s.isEmpty

/-- JavaScript `a || b` on number-or-absent fields. -/
def qOr (a b : Option ℚ) : Option ℚ := if truthyQ a then a else b

/-- JavaScript `a || b` on string-or-absent fields. -/
def sOr (a b : Option String) : Option String := if truthyS a then a else b

/-- Template-literal interpolation of a string-or-absent value. -/
def tmplS : Option String → String
  | none => "undefined"
  | some s => s

/-- `safeNum(v, fallback)`: parseFloat of a JSON number is the number itself,
of an absent field NaN, so the fallback. -/
def safeNum (v : Option ℚ) (fallback : ℚ) : ℚ := v.getD fallback

structure GameStat where
  position : Option String := none
  name : Option String := none
  goals : Option ℚ := none
  assists : Option ℚ := none
  saves : Option ℚ := none
  shots_against : Option ℚ := none
  shotsAgainst : Option ℚ := none
  goals_against : Option ℚ := none
  goalsAgainst : Option ℚ := none
deriving DecidableEq, Inhabited

structure RosterEntry where
  id : Option String := none
  player_id : Option String := none
  name : Option String := none
  player_name : Option String := none
  position : Option String := none
  number : Option String := none
  jersey : Option String := none
  jersey_number : Option String := none
deriving DecidableEq, Inhabited

structure GameRec where
  player_stats : Option (List (String × GameStat)) := none
  playerStats : Option (List (String × GameStat)) := none
deriving Inhabited

/-- `game.player_stats || game.playerStats || {}`: an object is truthy even
when empty, so the first present map wins. -/
def gameEntries (g : GameRec) : List (String × GameStat) :=
  ((g.player_stats).orElse (fun _ => g.playerStats)).getD []

/-- `String(p.id || p.player_id || '')`. -/
def rosterId (p : RosterEntry) : String := tmplS (sOr (sOr p.id p.player_id) (some ""))

/-- The `playerById` Map: built in roster order, later entries with the same
non-empty id overwriting earlier ones, so lookup finds the last match. -/
def playerById (roster : List RosterEntry) (pid : String) : Option RosterEntry :=
  ((roster.filter (fun p => rosterId p != "")).reverse).find? (fun p => rosterId p == pid)

structure Star where
  playerId : String
  name : String
  jersey : String
  position : String
  statLine : String
  statLabel : String
  score : ℚ
  isGoalie : Bool
deriving DecidableEq, Inhabited

/-- `player?.name || player?.player_name || stats.name || "Player <id>"`. -/
def entryName (pb : String → Option RosterEntry) (e : String × GameStat) : String :=
  tmplS (sOr (sOr (sOr ((pb e.1).bind (·.name)) ((pb e.1).bind (·.player_name))) e.2.name)
    (some ("Player " ++ e.1)))

/-- `stats.position || player?.position || ''`. -/
def entryPosition (pb : String → Option RosterEntry) (e : String × GameStat) : String :=
  tmplS (sOr (sOr e.2.position ((pb e.1).bind (·.position))) (some ""))

/-- `position.toUpperCase() === 'G'`. -/
def entryIsGoalie (pb : String → Option RosterEntry) (e : String × GameStat) : Bool :=
  strUpper (entryPosition pb e) == "G"

/-- `player?.number || player?.jersey || player?.jersey_number || ''`. -/
def entryJersey (pb : String → Option RosterEntry) (e : String × GameStat) : String :=
  tmplS (sOr (sOr (sOr ((pb e.1).bind (·.number)) ((pb e.1).bind (·.jersey)))
    ((pb e.1).bind (·.jersey_number))) (some ""))

def entrySaves (e : String × GameStat) : ℚ := safeNum e.2.saves 0
def entrySA (e : String × GameStat) : ℚ := safeNum (qOr e.2.shots_against e.2.shotsAgainst) 0
def entryGA (e : String × GameStat) : ℚ := safeNum (qOr e.2.goals_against e.2.goalsAgainst) 0
def entryGoals (e : String × GameStat) : ℚ := safeNum e.2.goals 0
def entryAssists (e : String × GameStat) : ℚ := safeNum e.2.assists 0

/-- `Number.prototype.toFixed(1)` on the exact rational value (the float
rounding distinctions are immaterial to the claims, which do not inspect
display strings). -/
def toFixed1 (q : ℚ) : String :=
  let s : Int := ⌊q * 10 + 1 / 2⌋
  toString (s / 10) ++ "." ++ toString (s % 10)

/-- The skater `statLine` accumulation: `"<g>G"` then `" <a>A"`, non-zero
components only. -/
def skaterStatLine (e : String × GameStat) : String :=
  let s1 := if 0 < entryGoals e then numToStr (entryGoals e) ++ "G" else ""
  if 0 < entryAssists e then
    s1 ++ (if s1.isEmpty then "" else " ") ++ numToStr (entryAssists e) ++ "A"
  else s1

/-- One loop iteration of computeThreeStars: the candidate pushed for a
`[playerId, stats]` entry, `none` when the gate fails. -/
def starOfEntry (pb : String → Option RosterEntry) (e : String × GameStat) : Option Star :=
  if entryIsGoalie pb e then
    if 0 < entrySA e then
      some
        { playerId := e.1
          name := entryName pb e
          jersey := entryJersey pb e
          position := "G"
          statLine := numToStr (entrySaves e) ++ " SV"
          statLabel := toFixed1 (entrySaves e / entrySA e * 100) ++ "% • " ++
            numToStr (entryGA e) ++ " GA"
          score := entrySaves e * 2 + (if entryGA e = 0 then 50 else 0) +
            entrySaves e / entrySA e * 100
          isGoalie := true }
    else none
  else
    if 0 < entryGoals e + entryAssists e ∨ 0 < entryGoals e then
      some
        { playerId := e.1
          name := entryName pb e
          jersey := entryJersey pb e
          position := if (entryPosition pb e).isEmpty then "?" else entryPosition pb e
          statLine := if (skaterStatLine e).isEmpty then "--" else skaterStatLine e
          statLabel := "GAME"
          score := entryGoals e * 3 + entryAssists e * 2
          isGoalie := false }
    else none

def candidatesOf (g : GameRec) (roster : List RosterEntry) : List Star :=
  (gameEntries g).filterMap (starOfEntry (playerById roster))

/-- The comparator `(a, b) => b.score - a.score` as a stays-before relation. -/
def scoreDescPre (a b : Star) : Bool := decide (b.score ≤ a.score)

/-- `computeThreeStars(game, roster)`: candidates in entry order, stably
sorted by descending score, first three. -/
def computeThreeStars (g : GameRec) (roster : List RosterEntry) : List Star :=
  (sortBy scoreDescPre (candidatesOf g roster)).take 3

/-! ## Division standings classifier (renderStandings, both files)

Rows are split by the explicit division field or the South name heuristic,
then each division is sorted by `(b.pts || 0) - (a.pts || 0)` alone. -/

structure StandingsRow where
  team : Option String := none
  division : Option String := none
  slug : Option String := none
  pts : Option ℚ := none
  gp : Option ℚ := none
  w : Option ℚ := none
  l : Option ℚ := none
  diff : Option ℚ := none
deriving DecidableEq, Inhabited

def SOUTH_TEAMS : List String :=
  ["amherst", "ramblers", "truro", "bearcats", "pictou", "crushers",
   "yarmouth", "mariners", "valley", "wildcats", "south shore", "lumberjacks"]


/-- `team.division || (SOUTH_TEAMS.some(t => (team.team || '').toLowerCase().includes(t)) ? 'Eastlink South' : 'Eastlink North')`. -/
def rowDivision (r : StandingsRow) : String :=
  let heur :=
    if SOUTH_TEAMS.any (fun t => strIncludes (strLower (tmplS (sOr r.team (some "")))) t)
    then "Eastlink South" else "Eastlink North"
  match r.division with
  | some d => if d.isEmpty then heur else d
  | none => heur

/-- `(r.pts || 0)`. -/
def ptsKey (r : StandingsRow) : ℚ := safeNum r.pts 0

def ptsDescPre (a b : StandingsRow) : Bool := decide (ptsKey b ≤ ptsKey a)

/-- The southTeams push loop followed by the points sort. -/
def standingsSouth (rows : List StandingsRow) : List StandingsRow :=
  sortBy ptsDescPre (rows.filter (fun r => rowDivision r == "Eastlink South"))

/-- The northTeams push loop followed by the points sort. -/
def standingsNorth (rows : List StandingsRow) : List StandingsRow :=
  sortBy ptsDescPre (rows.filter (fun r => rowDivision r != "Eastlink South"))

/-- The per-row `isCutline = rank === 4` flags emitted by renderDivision, in
row order (`rank = i + 1`, 0-based `i`). -/
def cutlineFlags (teams : List StandingsRow) : List Bool :=
  teams.enum.map (fun p => decide (p.1 + 1 = 4))

/-! ## Rotation selector (pickRotatingPlayers, main display script 782-827)

The localStorage rotation record becomes an explicit `Option RotState`
argument and result (`none` = missing or unparseable, which `loadRotation`
turns into `{}`).  `Math.random()` draws become a list of indices consumed by
the padding loop (the JS loop executes finitely many draws with probability
one; quantifying over every draw list covers every such execution).  Note the
source aliasing: the local `seen` array is captured before the day-reset
writes `st.seen = []`, and is written back afterwards, so the reset of `seen`
has no effect on the call; only `st.i = 0` does. -/

structure RPlayer where
  player_id : Option String := none
  id : Option String := none
  name : Option String := none
  number : Option String := none
  num : Option String := none
  position : Option String := none
  pos : Option String := none
  points : Option ℚ := none
  pts : Option ℚ := none
deriving DecidableEq, Inhabited

/-- The composite rotation key
`` `${p.player_id || p.id || p.name}|${p.number || p.num || ''}|${p.position || p.pos || ''}` ``. -/
def keyOf (p : RPlayer) : String :=
  tmplS (sOr (sOr p.player_id p.id) p.name) ++ "|" ++
  tmplS (sOr (sOr p.number p.num) (some "")) ++ "|" ++
  tmplS (sOr (sOr p.position p.pos) (some ""))

/-- `safeNum(p.points || p.pts, 0)`. -/
def rotPtsOf (p : RPlayer) : ℚ := safeNum (qOr p.points p.pts) 0

/-- `String(p.name)`. -/
def rotNameOf (p : RPlayer) : String := tmplS p.name

/-- `localeCompare`, modelled as code-point comparison (the display locale
agrees with it on the ASCII names involved; no claim depends on locale). -/
def lcmp (a b : String) : Int :=
  match compare a b with
  | .lt => -1
  | .eq => 0
  | .gt => 1

/-- Stays-before relation of the comparator
`(a, b) => (safeNum(b.points || b.pts, 0) - safeNum(a.points || a.pts, 0)) || String(a.name).localeCompare(String(b.name))`:
the earlier element stays in front exactly when the comparator is ≤ 0. -/
def rotPre (a b : RPlayer) : Bool :=
  if rotPtsOf b - rotPtsOf a ≠ 0 then decide (rotPtsOf b - rotPtsOf a < 0)
  else decide (lcmp (rotNameOf a) (rotNameOf b) ≤ 0)

def sortRotation (players : List RPlayer) : List RPlayer := sortBy rotPre players

structure RotState where
  dayKey : Option String := none
  seen : Option (List String) := none
  i : Option Nat := none
  t : Option Int := none
deriving DecidableEq, Inhabited

/-- The selection loop: up to `fuel = 2 * sorted.length` iterations, walking
`i` circularly, picking players whose key is not in `seen`, and trimming the
oldest quarter of `seen` once it exceeds three quarters of the pool
(`seen.length > sorted.length * 0.75` is exact as `4·|seen| > 3·L`;
`Math.floor(sorted.length * 0.25)` is `L / 4`). -/
def rotLoop (sorted : List RPlayer) (n : Nat) :
    Nat → List RPlayer → List String → Nat → List RPlayer × List String × Nat
  | 0, picks, seen, i => (picks, seen, i)
  | fuel + 1, picks, seen, i =>
    if picks.length < n then
      let p := sorted.getD (i % sorted.length) default
      let key := keyOf p
      let picks1 := if key ∈ seen then picks else picks ++ [p]
      let seen1 := if key ∈ seen then seen else seen ++ [key]
      let seen2 :=
        if 3 * sorted.length < 4 * seen1.length then seen1.drop (sorted.length / 4)
        else seen1
      rotLoop sorted n fuel picks1 seen2 (i + 1)
    else (picks, seen, i)

/-- The random padding loop, consuming one drawn index per iteration
(`sorted[Math.floor(Math.random() * sorted.length)]` is modelled as the draw
modulo the pool size; `picks.includes` compares players structurally). -/
def rotPad (sorted : List RPlayer) (n : Nat) : List RPlayer → List Nat → List RPlayer
  | picks, [] => picks
  | picks, r :: rs =>
    if picks.length < n then
      let p := sorted.getD (r % sorted.length) default
      let picks1 := if p ∈ picks then picks else picks ++ [p]
      if sorted.length ≤ picks1.length then picks1
      else rotPad sorted n picks1 rs
    else picks

/-- `Array.isArray(st.seen) ? st.seen : []`, read before the day-reset. -/
def seenInit (store : Option RotState) : List String :=
  ((store.getD {}).seen).getD []

/-- `let i = st.i || 0`, read after the day-reset (which zeroes `st.i` when
the stored day differs from today). -/
def cursorInit (store : Option RotState) (today : String) : Nat :=
  if (store.getD {}).dayKey = some today then ((store.getD {}).i).getD 0 else 0

/-- `pickRotatingPlayers(players, n)` with the ambient store, date and random
stream explicit; returns the picks and the store after the call. -/
def pickRotatingPlayers (players : List RPlayer) (n : Nat) (store : Option RotState)
    (today : String) (now : Int) (rand : List Nat) : List RPlayer × Option RotState :=
  if players.length = 0 then ([], store)
  else
    let sorted := sortRotation players
    let r := rotLoop sorted n (sorted.length * 2) [] (seenInit store) (cursorInit store today)
    let st1 : RotState :=
      { dayKey := some today, seen := some r.2.1, i := some r.2.2, t := some now }
    let picks2 := if r.1.length < n then rotPad sorted n r.1 rand else r.1
    (picks2.take n, some st1)

/-- `⌈P/n⌉` successive calls against the shared store within one day; the
picks of all calls concatenated, with the store threaded through. -/
def rotRun (pool : List RPlayer) (n : Nat) (today : String) (now : Int) :
    Nat → Option RotState → List (List Nat) → List RPlayer × Option RotState
  | 0, store, _ => ([], store)
  | k + 1, store, rands =>
    let c := pickRotatingPlayers pool n store today now (rands.headD [])
    let rest := rotRun pool n today now k c.2 rands.tail
    (c.1 ++ rest.1, rest.2)

/-- The shape the `seen` list keeps while the cursor walks the sorted pool
for the first time: the keys of the sorted players from trim point `a` up to
the cursor `c` (used by the coverage proof, not by the source). -/
def seenWindow (S : List RPlayer) (a c : Nat) : List String :=
  ((S.map keyOf).take c).drop a

/-! ## Ticker override gate

Modelled from the spec: the override/promo gating of the ticker assembler
(the `overrides.json` handling of `renderTicker` in
`index_mhl_redesign_v3_fixed.html`, a repository file that is not among the
sources here; the `renderTicker` in display.js and the main display script
never reads an override payload at all).  Per the spec, the payload is
`{active: bool, until: timestamp, ticker: string}`; its item is appended to
the ticker item list only when `active == true` and `until` is not expired,
absent gate fields count as inactive (fail-closed), and no other display
surface is touched. -/

structure OverridePayload where
  active : Option Bool := none
  untilTs : Option Int := none
  ticker : Option String := none
deriving DecidableEq, Inhabited

structure DisplaySurfaces where
  slides : List String := []
  tickerItems : List String := []
deriving DecidableEq, Inhabited

/-- Modelled from the spec: `active === true` and `until` strictly in the
future; a missing `active` or `until` fails the gate. -/
def overrideGate (ov : OverridePayload) (now : Int) : Bool :=
  (ov.active == some true) &&
  (match ov.untilTs with
   | some t => decide (now < t)
   | none => false)

/-- Modelled from the spec: the override contributes its ticker line to the
ticker item list exactly when the gate passes, and touches nothing else. -/
def applyOverride (d : DisplaySurfaces) (ov : OverridePayload) (now : Int) :
    DisplaySurfaces :=
  if overrideGate ov now then
    { d with tickerItems := d.tickerItems ++ [(ov.ticker).getD ""] }
  else d

/-! ## Concrete records used by counterexamples and failing inputs -/

/-- A new-format game whose result object carries `won: false` but no scores. -/
def c2_game : JSValue := .obj [("result", .obj [("won", .bool false)])]

/-- A game with a present but empty result object. -/
def c3_game : JSValue := .obj [("result", .obj [])]

/-- A game whose `opponent.team_code` is a (truthy) number, not a string. -/
def c9_badGame : JSValue := .obj [("opponent", .obj [("team_code", .num 5)])]

/-- A three-player pool with pairwise distinct rotation keys. -/
def c4_pool : List RPlayer :=
  [{ name := some "alice", points := some 9 },
   { name := some "bob", points := some 5 },
   { name := some "carol", points := some 2 }]

def c6_r1 : StandingsRow := { team := some "valley wildcats", pts := some 10, diff := some (-5) }

def c6_r2 : StandingsRow := { team := some "truro bearcats", pts := some 10, diff := some 7 }

/-! ## Theorems -/

/-! ### Properties of the stable sort -/

theorem perm_insBy (pre : α → α → Bool) (x : α) :
    ∀ l : List α, (insBy pre x l).Perm (x :: l) := by
  intro l
  induction l with
  | nil => simp [insBy]
  | cons y ys ih =>
    simp only [insBy]
    by_cases h : pre x y = true
    · simp [h]
    · simp only [Bool.not_eq_true] at h
      simp only [h, Bool.false_eq_true, if_false]
      exact ((ih.cons y).trans (List.Perm.swap x y ys))

theorem perm_sortBy (pre : α → α → Bool) : ∀ l : List α, (sortBy pre l).Perm l := by
  intro l
  induction l with
  | nil => simp [sortBy]
  | cons x xs ih => exact (perm_insBy pre x (sortBy pre xs)).trans (ih.cons x)

theorem pairwise_insBy (pre : α → α → Bool)
    (htot : ∀ a b, pre a b = false → pre b a = true)
    (htrans : ∀ a b c, pre a b = true → pre b c = true → pre a c = true)
    (x : α) : ∀ l : List α, l.Pairwise (fun a b => pre a b = true) →
      (insBy pre x l).Pairwise (fun a b => pre a b = true) := by
  intro l
  induction l with
  | nil => intro _; simp [insBy]
  | cons y ys ih =>
    intro hp
    rw [List.pairwise_cons] at hp
    obtain ⟨hy, hys⟩ := hp
    simp only [insBy]
    by_cases h : pre x y = true
    · rw [if_pos h, List.pairwise_cons]
      refine ⟨?_, List.pairwise_cons.mpr ⟨hy, hys⟩⟩
      intro z hz
      rcases List.mem_cons.mp hz with hz | hz
      · exact hz ▸ h
      · exact htrans x y z h (hy z hz)
    · simp only [Bool.not_eq_true] at h
      rw [if_neg (by simp [h]), List.pairwise_cons]
      refine ⟨?_, ih hys⟩
      intro z hz
      have hz2 := (perm_insBy pre x ys).mem_iff.mp hz
      rcases List.mem_cons.mp hz2 with hz2 | hz2
      · rw [hz2]; exact htot x y h
      · exact hy z hz2

theorem pairwise_sortBy (pre : α → α → Bool)
    (htot : ∀ a b, pre a b = false → pre b a = true)
    (htrans : ∀ a b c, pre a b = true → pre b c = true → pre a c = true) :
    ∀ l : List α, (sortBy pre l).Pairwise (fun a b => pre a b = true) := by
  intro l
  induction l with
  | nil => simp [sortBy]
  | cons x xs ih => exact pairwise_insBy pre htot htrans x (sortBy pre xs) ih

theorem filter_insBy_pos (pre : α → α → Bool) (q : α → Bool) (x : α)
    (hq : q x = true) (h : ∀ y, pre x y = false → q y = false) :
    ∀ l : List α, (insBy pre x l).filter q = x :: l.filter q := by
  intro l
  induction l with
  | nil => simp [insBy, List.filter, hq]
  | cons y ys ih =>
    simp only [insBy]
    by_cases hp : pre x y = true
    · simp [hp, List.filter, hq]
    · simp only [Bool.not_eq_true] at hp
      have hqy : q y = false := h y hp
      simp [hp, List.filter, hqy, ih]

theorem filter_insBy_neg (pre : α → α → Bool) (q : α → Bool) (x : α)
    (hq : q x = false) : ∀ l : List α, (insBy pre x l).filter q = l.filter q := by
  intro l
  induction l with
  | nil => simp [insBy, List.filter, hq]
  | cons y ys ih =>
    simp only [insBy]
    by_cases hp : pre x y = true
    · simp [hp, List.filter, hq]
    · simp only [Bool.not_eq_true] at hp
      cases hqy : q y with
      | true => simp [hp, List.filter, hqy, ih]
      | false => simp [hp, List.filter, hqy, ih]

theorem filter_sortBy (pre : α → α → Bool) (q : α → Bool)
    (h : ∀ x y, q x = true → pre x y = false → q y = false) :
    ∀ l : List α, (sortBy pre l).filter q = l.filter q := by
  intro l
  induction l with
  | nil => simp [sortBy]
  | cons x xs ih =>
    simp only [sortBy]
    cases hx : q x with
    | true =>
      rw [filter_insBy_pos pre q x hx (fun y => h x y hx), ih]
      simp [List.filter, hx]
    | false =>
      rw [filter_insBy_neg pre q x hx, ih]
      simp [List.filter, hx]


/-- C2 counterexample: a game whose result object says `won: false` while both
extracted scores are null makes `didWeWin` return false, not null — so
`didWeWin` does NOT return null exactly when a score is null, and a null
score can surface as false. -/
theorem c2_didWeWin_counterexample :
    didWeWin c2_game = .bool false ∧ getOurScore c2_game = .null ∧
      getTheirScore c2_game = .null :=
  ⟨rfl, rfl, rfl⟩

/-- C2 (amended): `didWeWin` returns `game?.result?.won` verbatim whenever
that chain is not undefined; only otherwise does it return null exactly when
either extracted score is loosely null, and the comparison `ourScore >
theirScore` (JS relational semantics) when both are non-null. -/
theorem c2_didWeWin_amended (game : JSValue) :
    (∀ w, jsField (jsField game "result") "won" = w → w ≠ .undefined → didWeWin game = w) ∧
    (jsField (jsField game "result") "won" = .undefined →
      ((didWeWin game = .null ↔
          (jsLooseNull (getOurScore game) || jsLooseNull (getTheirScore game)) = true) ∧
       ((jsLooseNull (getOurScore game) || jsLooseNull (getTheirScore game)) = false →
          didWeWin game = .bool (jsGT (getOurScore game) (getTheirScore game))))) := by
  constructor
  · intro w hw hne
    unfold didWeWin
    rw [hw]
    cases w with
    | undefined => exact absurd rfl hne
    | null => rfl
    | bool b => rfl
    | num q => rfl
    | str s => rfl
    | obj fs => rfl
    | arr xs => rfl
  · intro hu
    unfold didWeWin
    rw [hu]
    constructor
    · by_cases hb : (jsLooseNull (getOurScore game) || jsLooseNull (getTheirScore game)) = true
      · simp [hb]
      · simp only [Bool.not_eq_true] at hb
        simp [hb]
    · intro hb
      simp [hb]

/-- C3 counterexample: a game whose `result` is a present but empty object is
reported completed while both extracted scores are null, refuting the
invariant that a completed game has non-null scores. -/
theorem c3_isCompleted_counterexample :
    isCompleted c3_game = true ∧ getOurScore c3_game = .null ∧
      getTheirScore c3_game = .null :=
  ⟨rfl, rfl, rfl⟩

/-- C3 (amended): `isCompleted` is true exactly when the game is truthy and at
least one of `result`, `home_score`, `homeScore` is loosely non-null; it does
not guarantee the extracted scores themselves are non-null. -/
theorem c3_isCompleted_amended (game : JSValue) :
    isCompleted game = true ↔
      (jsTruthy game = true ∧
        (jsLooseNull (jsField game "result") = false ∨
         jsLooseNull (jsField game "home_score") = false ∨
         jsLooseNull (jsField game "homeScore") = false)) := by
  unfold isCompleted
  by_cases h : jsTruthy game = true
  · simp [h, Bool.or_eq_true, Bool.not_eq_true', or_assoc]
  · simp only [Bool.not_eq_true] at h
    simp [h]

/-- C5: the override gate (modelled from the spec: the code lives in the
redesign HTML, outside these sources).  An override with `active = false`, or
a missing gate field, or an `until` not in the future contributes nothing to
the ticker; `active = true` with `until` in the future appends exactly its
ticker line to the ticker item list; the slides surface is never touched. -/
theorem c5_override_gate (d : DisplaySurfaces) (ov : OverridePayload) (now : Int) :
    (applyOverride d ov now).slides = d.slides ∧
    (ov.active = some false → applyOverride d ov now = d) ∧
    (ov.active = none → applyOverride d ov now = d) ∧
    (ov.untilTs = none → applyOverride d ov now = d) ∧
    (∀ t, ov.untilTs = some t → t ≤ now → applyOverride d ov now = d) ∧
    (∀ t, ov.active = some true → ov.untilTs = some t → now < t →
      (applyOverride d ov now).tickerItems = d.tickerItems ++ [(ov.ticker).getD ""]) := by
  refine ⟨?_, ?_, ?_, ?_, ?_, ?_⟩
  · unfold applyOverride
    split <;> rfl
  · intro h
    simp [applyOverride, overrideGate, h]
  · intro h
    simp [applyOverride, overrideGate, h]
  · intro h
    simp [applyOverride, overrideGate, h]
  · intro t ht hle
    simp [applyOverride, overrideGate, ht, not_lt.mpr hle]
  · intro t ha ht hlt
    simp [applyOverride, overrideGate, ha, ht, hlt]

/-- C6 counterexample: two South rows with equal points and goal
differentials -5 and 7, fed in that order, come out still in that order: the
classifier does not break the points tie by goal differential. -/
theorem c6_standings_counterexample :
    standingsSouth [c6_r1, c6_r2] = [c6_r1, c6_r2] ∧
    ptsKey c6_r1 = ptsKey c6_r2 ∧
    safeNum c6_r1.diff 0 < safeNum c6_r2.diff 0 ∧
    c6_r1 ≠ c6_r2 := by
  refine ⟨by decide, rfl, by decide, by decide⟩

/-- C6 (amended): within each division the rows are ordered descending by
`pts` (missing points count 0) and nothing else: the sort is a stable
permutation of the division rows, so rows with equal points keep their input
order; goal differential is never consulted. -/
theorem c6_standings_amended (rows : List StandingsRow) :
    (standingsSouth rows).Perm (rows.filter (fun r => rowDivision r == "Eastlink South")) ∧
    (standingsSouth rows).Pairwise (fun a b => ptsKey b ≤ ptsKey a) ∧
    (∀ q : ℚ, (standingsSouth rows).filter (fun r => ptsKey r == q) =
      (rows.filter (fun r => rowDivision r == "Eastlink South")).filter (fun r => ptsKey r == q)) ∧
    (standingsNorth rows).Perm (rows.filter (fun r => rowDivision r != "Eastlink South")) ∧
    (standingsNorth rows).Pairwise (fun a b => ptsKey b ≤ ptsKey a) ∧
    (∀ q : ℚ, (standingsNorth rows).filter (fun r => ptsKey r == q) =
      (rows.filter (fun r => rowDivision r != "Eastlink South")).filter (fun r => ptsKey r == q)) := by
  have htot : ∀ a b : StandingsRow, ptsDescPre a b = false → ptsDescPre b a = true := by
    intro a b h
    simp only [ptsDescPre, decide_eq_false_iff_not, not_le] at h
    simp only [ptsDescPre, decide_eq_true_eq]
    exact le_of_lt h
  have htrans : ∀ a b c : StandingsRow,
      ptsDescPre a b = true → ptsDescPre b c = true → ptsDescPre a c = true := by
    intro a b c hab hbc
    simp only [ptsDescPre, decide_eq_true_eq] at *
    exact le_trans hbc hab
  have hq : ∀ (q : ℚ) (x y : StandingsRow), (ptsKey x == q) = true →
      ptsDescPre x y = false → (ptsKey y == q) = false := by
    intro q x y hx hxy
    simp only [beq_iff_eq] at hx
    simp only [ptsDescPre, decide_eq_false_iff_not, not_le] at hxy
    simp only [beq_eq_false_iff_ne, ne_eq]
    intro hy
    rw [hx, hy] at hxy
    exact lt_irrefl q hxy
  refine ⟨perm_sortBy _ _, ?_, ?_, perm_sortBy _ _, ?_, ?_⟩
  · exact (pairwise_sortBy ptsDescPre htot htrans _).imp
      (fun h => by simpa [ptsDescPre] using h)
  · intro q
    exact filter_sortBy ptsDescPre (fun r => ptsKey r == q) (hq q) _
  · exact (pairwise_sortBy ptsDescPre htot htrans _).imp
      (fun h => by simpa [ptsDescPre] using h)
  · intro q
    exact filter_sortBy ptsDescPre (fun r => ptsKey r == q) (hq q) _

/-- C7: for a division list of at least five rows, the cutline marker sits at
0-based index 3 and nowhere else — it attaches to the 4th-ranked team, the
last qualifying seed, separating ranks 4 and 5. -/
theorem c7_playoff_cutline (teams : List StandingsRow) (h : 5 ≤ teams.length) :
    (cutlineFlags teams).length = teams.length ∧
    ∀ i, i < teams.length → (cutlineFlags teams).getD i false = decide (i = 3) := by
  have hform : cutlineFlags teams =
      (List.range teams.length).map (fun i => decide (i + 1 = 4)) := by
    unfold cutlineFlags
    rw [← List.enum_map_fst teams, List.map_map]
    rfl
  constructor
  · rw [hform]
    simp
  · intro i hi
    rw [hform, List.getD_eq_getElem _ _ (by simpa using hi)]
    simp only [List.getElem_map, List.getElem_range]
    exact decide_eq_decide.mpr (by omega)

/-- C7 witness: the cutline theorem applied to a concrete six-row division. -/
theorem c7_playoff_cutline_witness :
    (cutlineFlags (List.replicate 6 ({} : StandingsRow))).length =
      (List.replicate 6 ({} : StandingsRow)).length ∧
    ∀ i, i < (List.replicate 6 ({} : StandingsRow)).length →
      (cutlineFlags (List.replicate 6 ({} : StandingsRow))).getD i false = decide (i = 3) :=
  c7_playoff_cutline (List.replicate 6 {}) (by decide)

/-- C1: computeThreeStars.  Per entry of the per-game stat map, a
goalie-classified entry yields a candidate exactly when its shots-against is
positive, scored `saves*2 + (goalsAgainst = 0 ? 50 : 0) + saves/shotsAgainst*100`;
a skater entry yields one exactly when goals are positive or goals+assists
are positive, scored `goals*3 + assists*2`.  The returned list is the first
three of a stable descending-score sort of the candidates: a permutation,
pairwise descending, with every equal-score class kept in first-encountered
entry order. -/
theorem c1_computeThreeStars (g : GameRec) (roster : List RosterEntry) :
    (∀ e : String × GameStat,
      (entryIsGoalie (playerById roster) e = true →
        ((starOfEntry (playerById roster) e).isSome = true ↔ 0 < entrySA e) ∧
        (∀ c, starOfEntry (playerById roster) e = some c →
          c.isGoalie = true ∧
          c.score = entrySaves e * 2 + (if entryGA e = 0 then 50 else 0) +
            entrySaves e / entrySA e * 100)) ∧
      (entryIsGoalie (playerById roster) e = false →
        ((starOfEntry (playerById roster) e).isSome = true ↔
          (0 < entryGoals e ∨ 0 < entryGoals e + entryAssists e)) ∧
        (∀ c, starOfEntry (playerById roster) e = some c →
          c.isGoalie = false ∧ c.score = entryGoals e * 3 + entryAssists e * 2))) ∧
    candidatesOf g roster = (gameEntries g).filterMap (starOfEntry (playerById roster)) ∧
    (∃ sorted : List Star,
      computeThreeStars g roster = sorted.take 3 ∧
      sorted.Perm (candidatesOf g roster) ∧
      sorted.Pairwise (fun a b => b.score ≤ a.score) ∧
      (∀ q : ℚ, sorted.filter (fun c => c.score == q) =
        (candidatesOf g roster).filter (fun c => c.score == q))) := by
  have htot : ∀ a b : Star, scoreDescPre a b = false → scoreDescPre b a = true := by
    intro a b h
    simp only [scoreDescPre, decide_eq_false_iff_not, not_le] at h
    simp only [scoreDescPre, decide_eq_true_eq]
    exact le_of_lt h
  have htrans : ∀ a b c : Star,
      scoreDescPre a b = true → scoreDescPre b c = true → scoreDescPre a c = true := by
    intro a b c hab hbc
    simp only [scoreDescPre, decide_eq_true_eq] at *
    exact le_trans hbc hab
  refine ⟨?_, rfl, sortBy scoreDescPre (candidatesOf g roster), rfl,
    perm_sortBy _ _, ?_, ?_⟩
  · intro e
    constructor
    · intro hg
      unfold starOfEntry
      rw [if_pos hg]
      by_cases hsa : 0 < entrySA e
      · rw [if_pos hsa]
        refine ⟨by simp [hsa], ?_⟩
        intro c hc
        rw [Option.some.injEq] at hc
        rw [← hc]
        exact ⟨rfl, rfl⟩
      · rw [if_neg hsa]
        refine ⟨iff_of_false (by simp) hsa, ?_⟩
        intro c hc
        exact absurd hc (by simp)
    · intro hg
      unfold starOfEntry
      rw [if_neg (by simp [hg])]
      by_cases hp : 0 < entryGoals e + entryAssists e ∨ 0 < entryGoals e
      · rw [if_pos hp]
        refine ⟨Iff.intro (fun _ => hp.symm) (fun _ => rfl), ?_⟩
        intro c hc
        rw [Option.some.injEq] at hc
        rw [← hc]
        exact ⟨rfl, rfl⟩
      · rw [if_neg hp]
        refine ⟨iff_of_false (by simp) (fun h => hp h.symm), ?_⟩
        intro c hc
        exact absurd hc (by simp)
  · exact (pairwise_sortBy scoreDescPre htot htrans _).imp
      (fun h => by simpa [scoreDescPre] using h)
  · intro q
    refine filter_sortBy scoreDescPre (fun c => c.score == q) ?_ _
    intro x y hx hxy
    simp only [beq_iff_eq] at hx
    simp only [scoreDescPre, decide_eq_false_iff_not, not_le] at hxy
    simp only [beq_eq_false_iff_ne, ne_eq]
    intro hy
    rw [hx, hy] at hxy
    exact lt_irrefl q hxy

/-- C8: the fetch cache contract.  The staleness ceiling is 30 minutes; a
successful fetch returns its payload and overwrites exactly the cache entry
of the path's key with the timestamped payload; a failed fetch leaves the
cache unchanged and returns the cached payload when it is younger than the
ceiling, else propagates the failure, also when there is no cached entry. -/
theorem c8_fetchJson_contract (path msg : String) (data : JSValue) (now : Int)
    (cache : String → Option CacheEntry) :
    CONFIG_staleOK = 1800000 ∧
    (fetchJson (.success data) cache now path).1 = Except.ok data ∧
    (fetchJson (.success data) cache now path).2 (cacheKeyOf path) = some ⟨now, data⟩ ∧
    (∀ k, k ≠ cacheKeyOf path → (fetchJson (.success data) cache now path).2 k = cache k) ∧
    (fetchJson (.failure msg) cache now path).2 = cache ∧
    (∀ e, cache (cacheKeyOf path) = some e →
      (now - e.ts < CONFIG_staleOK →
        (fetchJson (.failure msg) cache now path).1 = Except.ok e.data) ∧
      (CONFIG_staleOK ≤ now - e.ts →
        (fetchJson (.failure msg) cache now path).1 = Except.error msg)) ∧
    (cache (cacheKeyOf path) = none →
      (fetchJson (.failure msg) cache now path).1 = Except.error msg) := by
  refine ⟨rfl, rfl, ?_, ?_, ?_, ?_, ?_⟩
  · simp [fetchJson]
  · intro k hk
    simp [fetchJson, hk]
  · cases hc : cache (cacheKeyOf path) with
    | none => simp [fetchJson, hc]
    | some e => by_cases hlt : now - e.ts < CONFIG_staleOK <;> simp [fetchJson, hc, hlt]
  · intro e he
    constructor
    · intro hlt
      simp [fetchJson, he, hlt]
    · intro hge
      simp [fetchJson, he, not_lt.mpr hge]
  · intro he
    simp [fetchJson, he]

/-- C9: evaluating display.js getOpponent at a game whose wrongly-typed
`opponent.team_code` is the number 5 reaches `code.toLowerCase()` on a
non-string and throws a TypeError instead of returning a value. -/
theorem c9_getOpponent_throws :
    getOpponent_display c9_badGame =
      .error "TypeError: code.toLowerCase is not a function" := rfl

/-- C10: called with an empty pool, pickRotatingPlayers returns the empty
pick list and the store is passed through untouched, whatever it held — the
rotation state is neither consulted nor rewritten. -/
theorem c10_empty_pool_frame (n : Nat) (store : Option RotState) (today : String)
    (now : Int) (rand : List Nat) :
    pickRotatingPlayers [] n store today now rand = ([], store) := rfl

/-! ### Rotation coverage: supporting lemmas -/

theorem seenWindow_succ (S : List RPlayer) (a c : Nat) (ha : a ≤ c) (hc : c < S.length) :
    seenWindow S a c ++ [keyOf (S.get ⟨c, hc⟩)] = seenWindow S a (c + 1) := by
  unfold seenWindow
  have hc2 : c < (S.map keyOf).length := by simpa using hc
  rw [List.take_succ, List.getElem?_eq_getElem hc2]
  rw [List.drop_append_eq_append_drop]
  have h0 : a - ((S.map keyOf).take c).length = 0 := by
    simp only [List.length_take]
    omega
  rw [h0, List.drop_zero]
  congr 1
  simp [List.getElem_map]

theorem seenWindow_norm (S : List RPlayer) (a c : Nat) (hc : c ≤ S.length) :
    seenWindow S a c = seenWindow S (min a c) c := by
  unfold seenWindow
  rcases le_total a c with h | h
  · rw [min_eq_left h]
  · rw [min_eq_right h]
    have hlen : ((S.map keyOf).take c).length = c := by
      simp only [List.length_take, List.length_map]
      omega
    rw [List.drop_eq_nil_of_le (by omega), List.drop_eq_nil_of_le (by omega)]

theorem seenWindow_drop (S : List RPlayer) (a c d : Nat) :
    (seenWindow S a c).drop d = seenWindow S (a + d) c := by
  unfold seenWindow
  rw [List.drop_drop]

theorem key_not_mem_seenWindow (S : List RPlayer) (hK : (S.map keyOf).Nodup)
    (a c : Nat) (hc : c < S.length) :
    keyOf (S.get ⟨c, hc⟩) ∉ seenWindow S a c := by
  intro hmem
  have hc2 : c < (S.map keyOf).length := by simpa using hc
  have h1 : keyOf (S.get ⟨c, hc⟩) ∈ (S.map keyOf).take c := List.drop_subset _ _ hmem
  have hnd : ((S.map keyOf).take c ++ (S.map keyOf).drop c).Nodup := by
    rw [List.take_append_drop]
    exact hK
  have hdisj := List.disjoint_of_nodup_append hnd
  have h2 : keyOf (S.get ⟨c, hc⟩) ∈ (S.map keyOf).drop c := by
    rw [← List.getElem_cons_drop (S.map keyOf) c hc2]
    have : (S.map keyOf)[c] = keyOf (S.get ⟨c, hc⟩) := by
      simp [List.getElem_map]
    rw [this]
    exact List.mem_cons_self _ _
  exact hdisj h1 h2

theorem rotLoop_done (S : List RPlayer) (n fuel : Nat) (acc : List RPlayer)
    (seen : List String) (i : Nat) (h : ¬ acc.length < n) :
    rotLoop S n fuel acc seen i = (acc, seen, i) := by
  cases fuel with
  | zero => rfl
  | succ f => simp [rotLoop, h]

theorem rotLoop_extends (S : List RPlayer) (n : Nat) :
    ∀ (fuel : Nat) (acc : List RPlayer) (seen : List String) (i : Nat),
      ∃ t, (rotLoop S n fuel acc seen i).1 = acc ++ t := by
  intro fuel
  induction fuel with
  | zero =>
    intro acc seen i
    exact ⟨[], by simp [rotLoop]⟩
  | succ f ih =>
    intro acc seen i
    by_cases h : acc.length < n
    · simp only [rotLoop, if_pos h]
      by_cases hk : keyOf (S.getD (i % S.length) default) ∈ seen
      · simp only [if_pos hk]
        exact ih acc _ _
      · simp only [if_neg hk]
        obtain ⟨t, ht⟩ := ih (acc ++ [S.getD (i % S.length) default]) _ (i + 1)
        exact ⟨[S.getD (i % S.length) default] ++ t, by rw [ht, List.append_assoc]⟩
    · rw [rotLoop_done S n _ acc seen i h]
      exact ⟨[], by simp⟩

theorem rotPad_extends (S : List RPlayer) (n : Nat) :
    ∀ (rand : List Nat) (picks : List RPlayer),
      ∃ t, rotPad S n picks rand = picks ++ t := by
  intro rand
  induction rand with
  | nil =>
    intro picks
    exact ⟨[], by simp [rotPad]⟩
  | cons r rs ih =>
    intro picks
    by_cases h : picks.length < n
    · simp only [rotPad, if_pos h]
      by_cases hp : S.getD (r % S.length) default ∈ picks
      · simp only [if_pos hp]
        by_cases hb : S.length ≤ picks.length
        · simp only [if_pos hb]
          exact ⟨[], by simp⟩
        · simp only [if_neg hb]
          exact ih picks
      · simp only [if_neg hp]
        by_cases hb : S.length ≤ (picks ++ [S.getD (r % S.length) default]).length
        · simp only [if_pos hb]
          exact ⟨[S.getD (r % S.length) default], rfl⟩
        · simp only [if_neg hb]
          obtain ⟨t, ht⟩ := ih (picks ++ [S.getD (r % S.length) default])
          exact ⟨[S.getD (r % S.length) default] ++ t, by rw [ht, List.append_assoc]⟩
    · simp only [rotPad, if_neg h]
      exact ⟨[], by simp⟩

/-- While the cursor is inside the untouched tail of the sorted pool, every
iteration picks the player under the cursor: `j` iterations advance the
cursor by `j`, append exactly those players, and keep `seen` a window of the
key list. -/
theorem rotLoop_shift (S : List RPlayer) (n : Nat) (hK : (S.map keyOf).Nodup) :
    ∀ (j fuel : Nat) (acc : List RPlayer) (c a : Nat),
      acc.length + j ≤ n → a ≤ c → c + j ≤ S.length → j ≤ fuel →
      ∃ a2, a2 ≤ c + j ∧
        rotLoop S n fuel acc (seenWindow S a c) c =
          rotLoop S n (fuel - j) (acc ++ (S.drop c).take j) (seenWindow S a2 (c + j)) (c + j) := by
  intro j
  induction j with
  | zero =>
    intro fuel acc c a _ ha _ _
    exact ⟨a, by omega, by simp⟩
  | succ j ih =>
    intro fuel acc c a hacc ha hcj hfuel
    obtain ⟨f, rfl⟩ : ∃ f, fuel = f + 1 := ⟨fuel - 1, by omega⟩
    have hc : c < S.length := by omega
    have hacc2 : acc.length < n := by omega
    have hmod : c % S.length = c := Nat.mod_eq_of_lt hc
    have hget : S.getD (c % S.length) default = S.get ⟨c, hc⟩ := by
      rw [hmod, List.getD_eq_getElem S default hc]
      simp
    have hnm2 : keyOf (S.get ⟨c, hc⟩) ∉ seenWindow S a c :=
      key_not_mem_seenWindow S hK a c hc
    -- one unfolded iteration
    have hstep : rotLoop S n (f + 1) acc (seenWindow S a c) c =
        rotLoop S n f (acc ++ [S.get ⟨c, hc⟩])
          (let s1 := seenWindow S a c ++ [keyOf (S.get ⟨c, hc⟩)]
           if 3 * S.length < 4 * s1.length then s1.drop (S.length / 4) else s1)
          (c + 1) := by
      simp only [rotLoop, if_pos hacc2, hget, if_neg hnm2]
    have hwin : seenWindow S a c ++ [keyOf (S.get ⟨c, hc⟩)] = seenWindow S a (c + 1) :=
      seenWindow_succ S a c ha hc
    -- the trimmed seen list is again a window with trim point a1 ≤ c + 1
    obtain ⟨a1, ha1, hseen⟩ :
        ∃ a1, a1 ≤ c + 1 ∧
          (let s1 := seenWindow S a c ++ [keyOf (S.get ⟨c, hc⟩)]
           if 3 * S.length < 4 * s1.length then s1.drop (S.length / 4) else s1) =
            seenWindow S a1 (c + 1) := by
      rw [hwin]
      by_cases htrim : 3 * S.length < 4 * (seenWindow S a (c + 1)).length
      · refine ⟨min (a + S.length / 4) (c + 1), by omega, ?_⟩
        rw [if_pos htrim, seenWindow_drop, seenWindow_norm S _ _ (by omega)]
      · exact ⟨min a (c + 1), by omega, by
          rw [if_neg htrim, seenWindow_norm S a (c + 1) (by omega)]⟩
    rw [hstep, hseen]
    obtain ⟨a2, ha2, hrec⟩ := ih f (acc ++ [S.get ⟨c, hc⟩]) (c + 1) a1
      (by simpa using by omega) ha1 (by omega) (by omega)
    refine ⟨a2, by omega, ?_⟩
    rw [hrec]
    have hdrop : S.drop c = S.get ⟨c, hc⟩ :: S.drop (c + 1) := by
      rw [List.get_eq_getElem]
      exact (List.getElem_cons_drop S c hc).symm
    have hlists : (acc ++ [S.get ⟨c, hc⟩]) ++ (S.drop (c + 1)).take j =
        acc ++ (S.drop c).take (j + 1) := by
      rw [hdrop, List.append_assoc]
      rfl
    rw [hlists]
    have he1 : c + 1 + j = c + (j + 1) := by omega
    have he2 : f - j = f + 1 - (j + 1) := by omega
    rw [he1, he2]

theorem pick_eq (pool : List RPlayer) (n : Nat) (store : Option RotState)
    (today : String) (now : Int) (rand : List Nat) (h : pool.length ≠ 0) :
    pickRotatingPlayers pool n store today now rand =
      ((if (rotLoop (sortRotation pool) n ((sortRotation pool).length * 2) []
            (seenInit store) (cursorInit store today)).1.length < n
        then rotPad (sortRotation pool) n
            (rotLoop (sortRotation pool) n ((sortRotation pool).length * 2) []
              (seenInit store) (cursorInit store today)).1 rand
        else (rotLoop (sortRotation pool) n ((sortRotation pool).length * 2) []
            (seenInit store) (cursorInit store today)).1).take n,
       some { dayKey := some today,
              seen := some (rotLoop (sortRotation pool) n ((sortRotation pool).length * 2) []
                (seenInit store) (cursorInit store today)).2.1,
              i := some (rotLoop (sortRotation pool) n ((sortRotation pool).length * 2) []
                (seenInit store) (cursorInit store today)).2.2,
              t := some now }) := by
  simp only [pickRotatingPlayers, if_neg h]

theorem rotRun_succ (pool : List RPlayer) (n : Nat) (today : String) (now : Int)
    (k : Nat) (store : Option RotState) (rands : List (List Nat)) :
    rotRun pool n today now (k + 1) store rands =
      ((pickRotatingPlayers pool n store today now (rands.headD [])).1 ++
        (rotRun pool n today now k
          (pickRotatingPlayers pool n store today now (rands.headD [])).2 rands.tail).1,
       (rotRun pool n today now k
          (pickRotatingPlayers pool n store today now (rands.headD [])).2 rands.tail).2) := by
  simp only [rotRun]

/-- A call whose `n` picks all fit in the untouched tail of the sorted pool:
it returns the next `n` sorted players and leaves a window state at cursor
`c + n`. -/
theorem pick_call_A (pool : List RPlayer) (n : Nat) (store : Option RotState)
    (today : String) (now : Int) (rand : List Nat) (c a : Nat)
    (hK : ((sortRotation pool).map keyOf).Nodup)
    (hpool : pool.length ≠ 0)
    (hs : seenInit store = seenWindow (sortRotation pool) a c)
    (hi : cursorInit store today = c)
    (ha : a ≤ c) (hn : 0 < n) (hcn : c + n ≤ (sortRotation pool).length) :
    ∃ a2, a2 ≤ c + n ∧
      pickRotatingPlayers pool n store today now rand =
        (((sortRotation pool).drop c).take n,
          some { dayKey := some today,
                 seen := some (seenWindow (sortRotation pool) a2 (c + n)),
                 i := some (c + n), t := some now }) := by
  obtain ⟨a2, ha2, heq⟩ := rotLoop_shift (sortRotation pool) n hK n
    ((sortRotation pool).length * 2) [] c a (by simp) ha hcn (by omega)
  have hlen : (((sortRotation pool).drop c).take n).length = n := by
    simp only [List.length_take, List.length_drop]
    omega
  have hdone := rotLoop_done (sortRotation pool) n
    ((sortRotation pool).length * 2 - n) ([] ++ ((sortRotation pool).drop c).take n)
    (seenWindow (sortRotation pool) a2 (c + n)) (c + n)
    (by simp [hlen])
  refine ⟨a2, ha2, ?_⟩
  rw [pick_eq pool n store today now rand hpool, hs, hi, heq, hdone]
  simp [hlen, List.take_of_length_le (le_of_eq hlen)]

/-- A call that crosses the end of the sorted pool: its picks start with the
whole untouched tail `drop c` of the sorted pool. -/
theorem pick_call_B (pool : List RPlayer) (n : Nat) (store : Option RotState)
    (today : String) (now : Int) (rand : List Nat) (c a : Nat)
    (hK : ((sortRotation pool).map keyOf).Nodup)
    (hpool : pool.length ≠ 0)
    (hs : seenInit store = seenWindow (sortRotation pool) a c)
    (hi : cursorInit store today = c)
    (ha : a ≤ c) (hn : 0 < n)
    (hcL : c ≤ (sortRotation pool).length)
    (hLc : (sortRotation pool).length < c + n) :
    ∃ junk st2, pickRotatingPlayers pool n store today now rand =
      ((sortRotation pool).drop c ++ junk, st2) := by
  obtain ⟨a2, ha2, heq⟩ := rotLoop_shift (sortRotation pool) n hK
    ((sortRotation pool).length - c) ((sortRotation pool).length * 2) [] c a
    (by simp; omega) ha (by omega) (by omega)
  have htake : ((sortRotation pool).drop c).take ((sortRotation pool).length - c) =
      (sortRotation pool).drop c := by
    apply List.take_of_length_le
    simp [List.length_drop]
  rw [htake] at heq
  obtain ⟨t, ht⟩ := rotLoop_extends (sortRotation pool) n
    ((sortRotation pool).length * 2 - ((sortRotation pool).length - c))
    ([] ++ (sortRotation pool).drop c)
    (seenWindow (sortRotation pool) a2 (c + ((sortRotation pool).length - c)))
    (c + ((sortRotation pool).length - c))
  have hr1 : (rotLoop (sortRotation pool) n ((sortRotation pool).length * 2) []
      (seenInit store) (cursorInit store today)).1 = (sortRotation pool).drop c ++ t := by
    rw [hs, hi, heq, ht]
    simp
  have hdclen : ((sortRotation pool).drop c).length ≤ n := by
    simp only [List.length_drop]
    omega
  -- whether or not the padding loop runs, the picks extend the fresh tail
  obtain ⟨u, hu⟩ :
      ∃ u, (if (rotLoop (sortRotation pool) n ((sortRotation pool).length * 2) []
            (seenInit store) (cursorInit store today)).1.length < n
        then rotPad (sortRotation pool) n
            (rotLoop (sortRotation pool) n ((sortRotation pool).length * 2) []
              (seenInit store) (cursorInit store today)).1 rand
        else (rotLoop (sortRotation pool) n ((sortRotation pool).length * 2) []
            (seenInit store) (cursorInit store today)).1) =
        (sortRotation pool).drop c ++ u := by
    by_cases hcase : (rotLoop (sortRotation pool) n ((sortRotation pool).length * 2) []
        (seenInit store) (cursorInit store today)).1.length < n
    · rw [if_pos hcase]
      obtain ⟨u2, hu2⟩ := rotPad_extends (sortRotation pool) n rand
        (rotLoop (sortRotation pool) n ((sortRotation pool).length * 2) []
          (seenInit store) (cursorInit store today)).1
      rw [hu2, hr1, List.append_assoc]
      exact ⟨t ++ u2, rfl⟩
    · rw [if_neg hcase, hr1]
      exact ⟨t, rfl⟩
  refine ⟨u.take (n - ((sortRotation pool).drop c).length),
    some { dayKey := some today,
           seen := some (rotLoop (sortRotation pool) n ((sortRotation pool).length * 2) []
             (seenInit store) (cursorInit store today)).2.1,
           i := some (rotLoop (sortRotation pool) n ((sortRotation pool).length * 2) []
             (seenInit store) (cursorInit store today)).2.2,
           t := some now }, ?_⟩
  rw [pick_eq pool n store today now rand hpool, hu]
  rw [List.take_append_eq_append_take, List.take_of_length_le hdclen]

/-- Enough in-window calls cover the whole remaining tail of the sorted pool:
the concatenated picks of `m` calls start with `drop c` of the sorted pool
whenever `m·n` reaches from `c` to its end. -/
theorem rotRun_cover (pool : List RPlayer) (n : Nat) (today : String) (now : Int)
    (hK : ((sortRotation pool).map keyOf).Nodup)
    (hpool : pool.length ≠ 0) (hn : 0 < n) :
    ∀ (m : Nat) (store : Option RotState) (c a : Nat) (rands : List (List Nat)),
      seenInit store = seenWindow (sortRotation pool) a c →
      cursorInit store today = c →
      a ≤ c → c ≤ (sortRotation pool).length →
      (sortRotation pool).length ≤ c + m * n → 1 ≤ m →
      ∃ junk, (rotRun pool n today now m store rands).1 =
        (sortRotation pool).drop c ++ junk := by
  intro m
  induction m with
  | zero =>
    intro _ _ _ _ _ _ _ _ _ hm
    omega
  | succ m ih =>
    intro store c a rands hs hi ha hc hcov _
    by_cases hA : c + n ≤ (sortRotation pool).length
    · obtain ⟨a2, ha2, heq⟩ :=
        pick_call_A pool n store today now (rands.headD []) c a hK hpool hs hi ha hn hA
      rw [rotRun_succ, heq]
      cases m with
      | zero =>
        have hcn : c + n = (sortRotation pool).length := by omega
        refine ⟨[], ?_⟩
        simp only [rotRun]
        rw [List.append_nil, List.append_nil]
        apply List.take_of_length_le
        simp only [List.length_drop]
        omega
      | succ m2 =>
        obtain ⟨junk, hjunk⟩ := ih
          (some { dayKey := some today,
                  seen := some (seenWindow (sortRotation pool) a2 (c + n)),
                  i := some (c + n), t := some now })
          (c + n) a2 rands.tail (by simp [seenInit]) (by simp [cursorInit]) ha2 hA
          (by
            have hmul : (m2 + 1 + 1) * n = (m2 + 1) * n + n := Nat.succ_mul _ n
            omega)
          (by omega)
        rw [hjunk]
        refine ⟨junk, ?_⟩
        have hd2 : (sortRotation pool).drop (c + n) =
            ((sortRotation pool).drop c).drop n := by
          rw [List.drop_drop]
        rw [hd2, ← List.append_assoc, List.take_append_drop]
    · obtain ⟨junkB, st2, heq⟩ :=
        pick_call_B pool n store today now (rands.headD []) c a hK hpool hs hi ha hn hc
          (by omega)
      rw [rotRun_succ, heq]
      exact ⟨junkB ++ (rotRun pool n today now m st2 rands.tail).1, by
        rw [List.append_assoc]⟩

/-- C4: with a fresh day (no stored rotation state), a pool of P players with
pairwise distinct rotation keys, and P ≥ n ≥ 1, the picks of ⌈P/n⌉
consecutive calls against the shared store begin with a permutation of the
whole pool: every member is returned exactly once within the first P picks,
so each member appears before any member repeats, whatever the random
padding draws. -/
theorem c4_rotation_coverage (pool : List RPlayer) (n : Nat) (today : String)
    (now : Int) (rands : List (List Nat))
    (hn : 1 ≤ n) (hP : n ≤ pool.length) (hkeys : (pool.map keyOf).Nodup) :
    ((rotRun pool n today now ((pool.length + n - 1) / n) none rands).1.take
        pool.length).Perm pool ∧
    ∀ p ∈ pool,
      ((rotRun pool n today now ((pool.length + n - 1) / n) none rands).1.take
        pool.length).count p = 1 := by
  have hperm : (sortRotation pool).Perm pool := perm_sortBy _ _
  have hL : (sortRotation pool).length = pool.length := hperm.length_eq
  have hK : ((sortRotation pool).map keyOf).Nodup :=
    ((hperm.map keyOf).nodup_iff).mpr hkeys
  have hpoolpos : 0 < pool.length := lt_of_lt_of_le hn hP
  have hk1 : 1 ≤ (pool.length + n - 1) / n := by
    apply (Nat.one_le_div_iff (by omega)).mpr
    omega
  have hkn : pool.length ≤ 0 + ((pool.length + n - 1) / n) * n := by
    have hdm : n * ((pool.length + n - 1) / n) + (pool.length + n - 1) % n =
        pool.length + n - 1 := Nat.div_add_mod _ n
    have hm : (pool.length + n - 1) % n < n := Nat.mod_lt _ (by omega)
    have hc : ((pool.length + n - 1) / n) * n = n * ((pool.length + n - 1) / n) :=
      Nat.mul_comm _ n
    omega
  obtain ⟨junk, hjunk⟩ := rotRun_cover pool n today now hK (by omega) (by omega)
    ((pool.length + n - 1) / n) none 0 0 rands
    (by simp [seenInit, seenWindow]) (by simp [cursorInit]) (by omega)
    (by omega) (by rw [hL]; exact hkn) hk1
  rw [List.drop_zero] at hjunk
  have htake : (rotRun pool n today now ((pool.length + n - 1) / n) none rands).1.take
      pool.length = sortRotation pool := by
    rw [hjunk, ← hL, List.take_left]
  rw [htake]
  refine ⟨hperm, ?_⟩
  intro p hp
  have hnd : pool.Nodup := List.Nodup.of_map keyOf hkeys
  have hndS : (sortRotation pool).Nodup := (hperm.nodup_iff).mpr hnd
  exact List.count_eq_one_of_mem hndS (hperm.mem_iff.mpr hp)

/-- C4 witness: the coverage theorem applied to a concrete three-player pool
with n = 2 and ⌈3/2⌉ = 2 calls from a fresh store. -/
theorem c4_rotation_coverage_witness :
    ((rotRun c4_pool 2 "2026-01-01" 0 ((c4_pool.length + 2 - 1) / 2) none []).1.take
        c4_pool.length).Perm c4_pool ∧
    ∀ p ∈ c4_pool,
      ((rotRun c4_pool 2 "2026-01-01" 0 ((c4_pool.length + 2 - 1) / 2) none []).1.take
        c4_pool.length).count p = 1 :=
  c4_rotation_coverage c4_pool 2 "2026-01-01" 0 [] (by decide) (by decide) (by decide)

end AmherstDisplay
